import Mathlib

/-!
Shallow embedding of the Game of Life engine in `simpleGOL.py`.

The Python `Board` holds a sparse set of live cells (integer pairs), a
snapshot `previous` of the last generation, a generation counter `state`,
and accumulated bounding-box fields initialised to the sentinel values
`min_x = 100, max_x = -100, min_y = 100, max_y = -100`.  The methods
`expand`, `expansion`, `transition`, `update_boundaries` and
`Generate_next_state` are translated below; Python's mutation of `self`
becomes explicit state passing on the `Board` structure.  Python's
`set.remove`, which raises `KeyError` when the element is absent, is
modelled with `Option`.
-/

abbrev Cell := Int × Int

structure Board where
  live : Finset Cell
  previous : Finset Cell
  state : Nat
  min_x : Int
  max_x : Int
  min_y : Int
  max_y : Int
deriving DecidableEq

/-- `Board.expand`: the 3×3 block of cells `(x+a, y+b)` for `a, b` ranging
over `range(-1, 2) = {-1, 0, 1}`, i.e. the cell together with its 8
neighbours. -/
def expand (cell : Cell) : Finset Cell :=
  {(cell.1 - 1, cell.2 - 1), (cell.1 - 1, cell.2), (cell.1 - 1, cell.2 + 1),
   (cell.1, cell.2 - 1), (cell.1, cell.2), (cell.1, cell.2 + 1),
   (cell.1 + 1, cell.2 - 1), (cell.1 + 1, cell.2), (cell.1 + 1, cell.2 + 1)}

/-- `Board.expansion`: union of `expand` over every cell of `positions`. -/
def expansion (positions : Finset Cell) : Finset Cell :=
  positions.biUnion expand

/-- `Board.transition`: take the cell's neighbourhood, `remove` the cell
itself (Python raises `KeyError` if it were absent, hence the `Option`),
intersect with the live `state`, and report aliveness: exactly 3 live
neighbours, or exactly 2 live neighbours and the cell itself live. -/
def transition (cell : Cell) (state : Finset Cell) : Option Bool :=
  let neighbours := expand cell
  if cell ∈ neighbours then
    let liveNeighbours := (neighbours.erase cell) ∩ state
    some (liveNeighbours.card == 3 || (liveNeighbours.card == 2 && decide (cell ∈ state)))
  else
    none

/-- `Board.update_boundaries`: a no-op when `live` is empty; otherwise each
`min` field takes the lesser of its current value and the tight minimum of
the live coordinates, each `max` field the greater. -/
def update_boundaries (b : Board) : Board :=
  if h : b.live.Nonempty then
    { b with
      min_x := min b.min_x ((b.live.image Prod.fst).min' (h.image Prod.fst))
      max_x := max b.max_x ((b.live.image Prod.fst).max' (h.image Prod.fst))
      min_y := min b.min_y ((b.live.image Prod.snd).min' (h.image Prod.snd))
      max_y := max b.max_y ((b.live.image Prod.snd).max' (h.image Prod.snd)) }
  else b

/-- `Board.__init__`: deduplicate the seed into `live`, start `previous`
empty and the generation counter `state` at 0, set the sentinel bounds and
run `update_boundaries` once. -/
def mkBoard (initial_cells : List Cell) : Board :=
  update_boundaries
    { live := initial_cells.toFinset
      previous := ∅
      state := 0
      min_x := 100
      max_x := -100
      min_y := 100
      max_y := -100 }

/-- `Board.Generate_next_state` (the `step()` of the spec): return the
board unchanged when `live` is empty; otherwise bump the counter, snapshot
`live` into `previous`, rebuild `live` as the candidates of
`expansion` that pass `transition` against the snapshot, then update the
boundaries. -/
def Generate_next_state (b : Board) : Board :=
  if b.live = ∅ then b
  else
    let previous := b.live
    let candidate := expansion b.live
    let live := candidate.filter (fun c => transition c previous = some true)
    update_boundaries
      { b with
        state := b.state + 1
        previous := previous
        live := live }

/-! ### Basic lemmas about the neighbourhood -/

lemma mem_expand {p c : Cell} :
    p ∈ expand c ↔ |p.1 - c.1| ≤ 1 ∧ |p.2 - c.2| ≤ 1 := by
  simp only [expand, Finset.mem_insert, Finset.mem_singleton, Prod.ext_iff, abs_le]
  omega

lemma self_mem_expand (c : Cell) : c ∈ expand c := by
  simp [mem_expand]

lemma mem_expand_comm {p c : Cell} : p ∈ expand c ↔ c ∈ expand p := by
  rw [mem_expand, mem_expand, abs_sub_comm, abs_sub_comm p.2]

lemma mem_expansion {c : Cell} {s : Finset Cell} :
    c ∈ expansion s ↔ ∃ p ∈ s, c ∈ expand p := by
  simp [expansion]

lemma card_expand (c : Cell) : (expand c).card = 9 := by
  obtain ⟨x, y⟩ := c
  simp only [expand]
  repeat
    rw [Finset.card_insert_of_not_mem
      (by simp only [Finset.mem_insert, Finset.mem_singleton, Prod.mk.injEq, not_or]; omega)]
  rw [Finset.card_singleton]

/-! ### The transition rule never fails and matches the live-neighbour count -/

lemma transition_eq_some (c : Cell) (s : Finset Cell) :
    transition c s =
      some (((expand c).erase c ∩ s).card == 3 ||
            (((expand c).erase c ∩ s).card == 2 && decide (c ∈ s))) := by
  simp [transition, self_mem_expand]

lemma transition_some_true_iff (c : Cell) (s : Finset Cell) :
    transition c s = some true ↔
      ((expand c).erase c ∩ s).card = 3 ∨
      (((expand c).erase c ∩ s).card = 2 ∧ c ∈ s) := by
  rw [transition_eq_some]
  simp

/-- A cell passing the rule has a live neighbour (the count is 2 or 3), so
it lies in the neighbour expansion of the live set. -/
lemma rule_mem_expansion {c : Cell} {s : Finset Cell}
    (h : ((expand c).erase c ∩ s).card = 3 ∨
         (((expand c).erase c ∩ s).card = 2 ∧ c ∈ s)) :
    c ∈ expansion s := by
  have hpos : 0 < ((expand c).erase c ∩ s).card := by
    rcases h with h | ⟨h, _⟩ <;> omega
  obtain ⟨p, hp⟩ := Finset.card_pos.mp hpos
  rw [Finset.mem_inter] at hp
  exact mem_expansion.mpr
    ⟨p, hp.2, mem_expand_comm.mp (Finset.mem_of_mem_erase hp.1)⟩

/-! ### `update_boundaries` projections -/

lemma update_boundaries_live (b : Board) : (update_boundaries b).live = b.live := by
  unfold update_boundaries
  split <;> rfl

lemma update_boundaries_previous (b : Board) :
    (update_boundaries b).previous = b.previous := by
  unfold update_boundaries
  split <;> rfl

lemma update_boundaries_state (b : Board) :
    (update_boundaries b).state = b.state := by
  unfold update_boundaries
  split <;> rfl

/-! ### `Generate_next_state` projections -/

lemma gen_of_empty {b : Board} (h : b.live = ∅) : Generate_next_state b = b := by
  simp [Generate_next_state, h]

lemma gen_live_of_nonempty {b : Board} (h : b.live ≠ ∅) :
    (Generate_next_state b).live
      = (expansion b.live).filter (fun c => transition c b.live = some true) := by
  simp only [Generate_next_state, if_neg h, update_boundaries_live]

lemma gen_previous_of_nonempty {b : Board} (h : b.live ≠ ∅) :
    (Generate_next_state b).previous = b.live := by
  simp only [Generate_next_state, if_neg h, update_boundaries_previous]

lemma gen_state_of_nonempty {b : Board} (h : b.live ≠ ∅) :
    (Generate_next_state b).state = b.state + 1 := by
  simp only [Generate_next_state, if_neg h, update_boundaries_state]

lemma iterate_gen_of_empty {b : Board} (h : b.live = ∅) (n : ℕ) :
    (Generate_next_state)^[n] b = b := by
  induction n with
  | zero => rfl
  | succ k ih => rw [Function.iterate_succ_apply', ih, gen_of_empty h]

/-! ### Sentinel-clamped extrema

The bounds fields are folds of `min`/`max` that start from the sentinel
values `100` and `-100` fixed in `Board.__init__`; `sentinelMin v s` is the
least element of `s` together with the seed `v`, and dually for
`sentinelMax`. -/

def sentinelMin (v : Int) (s : Finset Int) : Int :=
  (insert v s).min' (Finset.insert_nonempty v s)

def sentinelMax (v : Int) (s : Finset Int) : Int :=
  (insert v s).max' (Finset.insert_nonempty v s)

lemma sentinelMin_empty (v : Int) : sentinelMin v ∅ = v := by
  simp [sentinelMin]

lemma sentinelMax_empty (v : Int) : sentinelMax v ∅ = v := by
  simp [sentinelMax]

lemma sentinelMin_le (v : Int) (s : Finset Int) : sentinelMin v s ≤ v :=
  Finset.min'_le _ _ (Finset.mem_insert_self v s)

lemma le_sentinelMax (v : Int) (s : Finset Int) : v ≤ sentinelMax v s :=
  Finset.le_max' _ _ (Finset.mem_insert_self v s)

lemma sentinelMin_le_mem {x : Int} (v : Int) {s : Finset Int} (hx : x ∈ s) :
    sentinelMin v s ≤ x :=
  Finset.min'_le _ _ (Finset.mem_insert_of_mem hx)

lemma mem_le_sentinelMax {x : Int} (v : Int) {s : Finset Int} (hx : x ∈ s) :
    x ≤ sentinelMax v s :=
  Finset.le_max' _ _ (Finset.mem_insert_of_mem hx)

lemma sentinelMin_of_nonempty (v : Int) {s : Finset Int} (hs : s.Nonempty) :
    sentinelMin v s = min v (s.min' hs) := by
  apply le_antisymm
  · exact le_min (sentinelMin_le v s) (sentinelMin_le_mem v (Finset.min'_mem s hs))
  · apply Finset.le_min'
    intro y hy
    rcases Finset.mem_insert.mp hy with rfl | hy
    · exact min_le_left _ _
    · exact le_trans (min_le_right _ _) (Finset.min'_le _ _ hy)

lemma sentinelMax_of_nonempty (v : Int) {s : Finset Int} (hs : s.Nonempty) :
    sentinelMax v s = max v (s.max' hs) := by
  apply le_antisymm
  · apply Finset.max'_le
    intro y hy
    rcases Finset.mem_insert.mp hy with rfl | hy
    · exact le_max_left _ _
    · exact le_trans (Finset.le_max' _ _ hy) (le_max_right _ _)
  · exact max_le (le_sentinelMax v s) (mem_le_sentinelMax v (Finset.max'_mem s hs))

/-- Accumulating a second batch of values into the seed of `sentinelMin`
is the same as one `sentinelMin` over the union. -/
lemma sentinelMin_sentinelMin (v : Int) (s t : Finset Int) :
    sentinelMin (sentinelMin v t) s = sentinelMin v (s ∪ t) := by
  apply le_antisymm
  · apply Finset.le_min'
    intro y hy
    rcases Finset.mem_insert.mp hy with rfl | hy
    · exact le_trans (sentinelMin_le _ s) (sentinelMin_le _ t)
    · rcases Finset.mem_union.mp hy with hy | hy
      · exact sentinelMin_le_mem _ hy
      · exact le_trans (sentinelMin_le _ s) (sentinelMin_le_mem v hy)
  · apply Finset.le_min'
    intro y hy
    rcases Finset.mem_insert.mp hy with rfl | hy
    · apply Finset.le_min'
      intro z hz
      rcases Finset.mem_insert.mp hz with rfl | hz
      · exact sentinelMin_le _ _
      · exact sentinelMin_le_mem v (Finset.mem_union_right s hz)
    · exact sentinelMin_le_mem v (Finset.mem_union_left t hy)

/-- Dual of `sentinelMin_sentinelMin`. -/
lemma sentinelMax_sentinelMax (v : Int) (s t : Finset Int) :
    sentinelMax (sentinelMax v t) s = sentinelMax v (s ∪ t) := by
  apply le_antisymm
  · apply Finset.max'_le
    intro y hy
    rcases Finset.mem_insert.mp hy with rfl | hy
    · apply Finset.max'_le
      intro z hz
      rcases Finset.mem_insert.mp hz with rfl | hz
      · exact le_sentinelMax _ _
      · exact mem_le_sentinelMax v (Finset.mem_union_right s hz)
    · exact mem_le_sentinelMax v (Finset.mem_union_left t hy)
  · apply Finset.max'_le
    intro y hy
    rcases Finset.mem_insert.mp hy with rfl | hy
    · exact le_trans (le_sentinelMax _ t) (le_sentinelMax _ s)
    · rcases Finset.mem_union.mp hy with hy | hy
      · exact mem_le_sentinelMax _ hy
      · exact le_trans (mem_le_sentinelMax v hy) (le_sentinelMax _ s)

/-! ### The bounds fields as sentinel-clamped extrema -/

lemma update_boundaries_min_x (b : Board) :
    (update_boundaries b).min_x = sentinelMin b.min_x (b.live.image Prod.fst) := by
  unfold update_boundaries
  split
  · rename_i h
    rw [sentinelMin_of_nonempty _ (h.image Prod.fst)]
  · rename_i h
    rw [Finset.not_nonempty_iff_eq_empty.mp h, Finset.image_empty, sentinelMin_empty]

lemma update_boundaries_max_x (b : Board) :
    (update_boundaries b).max_x = sentinelMax b.max_x (b.live.image Prod.fst) := by
  unfold update_boundaries
  split
  · rename_i h
    rw [sentinelMax_of_nonempty _ (h.image Prod.fst)]
  · rename_i h
    rw [Finset.not_nonempty_iff_eq_empty.mp h, Finset.image_empty, sentinelMax_empty]

lemma update_boundaries_min_y (b : Board) :
    (update_boundaries b).min_y = sentinelMin b.min_y (b.live.image Prod.snd) := by
  unfold update_boundaries
  split
  · rename_i h
    rw [sentinelMin_of_nonempty _ (h.image Prod.snd)]
  · rename_i h
    rw [Finset.not_nonempty_iff_eq_empty.mp h, Finset.image_empty, sentinelMin_empty]

lemma update_boundaries_max_y (b : Board) :
    (update_boundaries b).max_y = sentinelMax b.max_y (b.live.image Prod.snd) := by
  unfold update_boundaries
  split
  · rename_i h
    rw [sentinelMax_of_nonempty _ (h.image Prod.snd)]
  · rename_i h
    rw [Finset.not_nonempty_iff_eq_empty.mp h, Finset.image_empty, sentinelMax_empty]

/-! ### Monotonicity of the bounds under one step -/

lemma gen_min_x_le (b : Board) : (Generate_next_state b).min_x ≤ b.min_x := by
  by_cases h : b.live = ∅
  · rw [gen_of_empty h]
  · simp only [Generate_next_state, if_neg h]
    rw [update_boundaries_min_x]
    exact sentinelMin_le _ _

lemma gen_le_max_x (b : Board) : b.max_x ≤ (Generate_next_state b).max_x := by
  by_cases h : b.live = ∅
  · rw [gen_of_empty h]
  · simp only [Generate_next_state, if_neg h]
    rw [update_boundaries_max_x]
    exact le_sentinelMax _ _

lemma gen_min_y_le (b : Board) : (Generate_next_state b).min_y ≤ b.min_y := by
  by_cases h : b.live = ∅
  · rw [gen_of_empty h]
  · simp only [Generate_next_state, if_neg h]
    rw [update_boundaries_min_y]
    exact sentinelMin_le _ _

lemma gen_le_max_y (b : Board) : b.max_y ≤ (Generate_next_state b).max_y := by
  by_cases h : b.live = ∅
  · rw [gen_of_empty h]
  · simp only [Generate_next_state, if_neg h]
    rw [update_boundaries_max_y]
    exact le_sentinelMax _ _

/-! ### Bounds contain the live set -/

/-- Every live cell lies inside the board's bounding-box fields. -/
def boundsContain (b : Board) : Prop :=
  ∀ c ∈ b.live,
    b.min_x ≤ c.1 ∧ c.1 ≤ b.max_x ∧ b.min_y ≤ c.2 ∧ c.2 ≤ b.max_y

lemma boundsContain_update_boundaries (b : Board) :
    boundsContain (update_boundaries b) := by
  intro c hc
  rw [update_boundaries_live] at hc
  rw [update_boundaries_min_x, update_boundaries_max_x,
      update_boundaries_min_y, update_boundaries_max_y]
  exact ⟨sentinelMin_le_mem _ (Finset.mem_image_of_mem Prod.fst hc),
         mem_le_sentinelMax _ (Finset.mem_image_of_mem Prod.fst hc),
         sentinelMin_le_mem _ (Finset.mem_image_of_mem Prod.snd hc),
         mem_le_sentinelMax _ (Finset.mem_image_of_mem Prod.snd hc)⟩

lemma boundsContain_mkBoard (init : List Cell) : boundsContain (mkBoard init) :=
  boundsContain_update_boundaries _

lemma boundsContain_gen {b : Board} (hb : boundsContain b) :
    boundsContain (Generate_next_state b) := by
  by_cases h : b.live = ∅
  · rw [gen_of_empty h]
    exact hb
  · simp only [Generate_next_state, if_neg h]
    exact boundsContain_update_boundaries _

lemma boundsContain_iterate (init : List Cell) (n : ℕ) :
    boundsContain ((Generate_next_state)^[n] (mkBoard init)) := by
  induction n with
  | zero => exact boundsContain_mkBoard init
  | succ k ih =>
      rw [Function.iterate_succ_apply']
      exact boundsContain_gen ih

/-! ### Cells ever live during the first `n` steps -/

/-- Union of the live sets of generations `0, …, n` of the board seeded
from `init`. -/
def everLive (init : List Cell) (n : ℕ) : Finset Cell :=
  (Finset.range (n + 1)).biUnion
    (fun k => ((Generate_next_state)^[k] (mkBoard init)).live)

lemma everLive_zero (init : List Cell) :
    everLive init 0 = (mkBoard init).live := by
  unfold everLive
  rw [Finset.range_one, Finset.singleton_biUnion, Function.iterate_zero_apply]

lemma everLive_succ (init : List Cell) (n : ℕ) :
    everLive init (n + 1)
      = (Generate_next_state ((Generate_next_state)^[n] (mkBoard init))).live
          ∪ everLive init n := by
  unfold everLive
  rw [Finset.range_succ, Finset.biUnion_insert, Function.iterate_succ_apply']

lemma mkBoard_live (init : List Cell) :
    (mkBoard init).live = init.toFinset := by
  unfold mkBoard
  rw [update_boundaries_live]

/-- The bounds after `n` steps are exactly the sentinel-seeded extrema of
the coordinates of every cell that has ever been live. -/
lemma bounds_sentinel_iterate (init : List Cell) (n : ℕ) :
    ((Generate_next_state)^[n] (mkBoard init)).min_x
        = sentinelMin 100 ((everLive init n).image Prod.fst)
      ∧ ((Generate_next_state)^[n] (mkBoard init)).max_x
        = sentinelMax (-100) ((everLive init n).image Prod.fst)
      ∧ ((Generate_next_state)^[n] (mkBoard init)).min_y
        = sentinelMin 100 ((everLive init n).image Prod.snd)
      ∧ ((Generate_next_state)^[n] (mkBoard init)).max_y
        = sentinelMax (-100) ((everLive init n).image Prod.snd) := by
  induction n with
  | zero =>
      rw [Function.iterate_zero_apply, everLive_zero, mkBoard_live]
      unfold mkBoard
      rw [update_boundaries_min_x, update_boundaries_max_x,
          update_boundaries_min_y, update_boundaries_max_y]
      exact ⟨rfl, rfl, rfl, rfl⟩
  | succ k ih =>
      obtain ⟨ih1, ih2, ih3, ih4⟩ := ih
      rw [Function.iterate_succ_apply', everLive_succ]
      by_cases h : ((Generate_next_state)^[k] (mkBoard init)).live = ∅
      · rw [gen_of_empty h, h, Finset.empty_union]
        exact ⟨ih1, ih2, ih3, ih4⟩
      · simp only [Generate_next_state, if_neg h, update_boundaries_live]
        rw [update_boundaries_min_x, update_boundaries_max_x,
            update_boundaries_min_y, update_boundaries_max_y]
        rw [Finset.image_union, Finset.image_union]
        refine ⟨?_, ?_, ?_, ?_⟩
        · rw [show ({ ((Generate_next_state)^[k] (mkBoard init)) with
              state := ((Generate_next_state)^[k] (mkBoard init)).state + 1
              previous := ((Generate_next_state)^[k] (mkBoard init)).live
              live := (expansion ((Generate_next_state)^[k] (mkBoard init)).live).filter
                (fun c => transition c ((Generate_next_state)^[k] (mkBoard init)).live
                  = some true) } : Board).min_x
            = ((Generate_next_state)^[k] (mkBoard init)).min_x from rfl, ih1]
          exact sentinelMin_sentinelMin _ _ _
        · rw [show ({ ((Generate_next_state)^[k] (mkBoard init)) with
              state := ((Generate_next_state)^[k] (mkBoard init)).state + 1
              previous := ((Generate_next_state)^[k] (mkBoard init)).live
              live := (expansion ((Generate_next_state)^[k] (mkBoard init)).live).filter
                (fun c => transition c ((Generate_next_state)^[k] (mkBoard init)).live
                  = some true) } : Board).max_x
            = ((Generate_next_state)^[k] (mkBoard init)).max_x from rfl, ih2]
          exact sentinelMax_sentinelMax _ _ _
        · rw [show ({ ((Generate_next_state)^[k] (mkBoard init)) with
              state := ((Generate_next_state)^[k] (mkBoard init)).state + 1
              previous := ((Generate_next_state)^[k] (mkBoard init)).live
              live := (expansion ((Generate_next_state)^[k] (mkBoard init)).live).filter
                (fun c => transition c ((Generate_next_state)^[k] (mkBoard init)).live
                  = some true) } : Board).min_y
            = ((Generate_next_state)^[k] (mkBoard init)).min_y from rfl, ih3]
          exact sentinelMin_sentinelMin _ _ _
        · rw [show ({ ((Generate_next_state)^[k] (mkBoard init)) with
              state := ((Generate_next_state)^[k] (mkBoard init)).state + 1
              previous := ((Generate_next_state)^[k] (mkBoard init)).live
              live := (expansion ((Generate_next_state)^[k] (mkBoard init)).live).filter
                (fun c => transition c ((Generate_next_state)^[k] (mkBoard init)).live
                  = some true) } : Board).max_y
            = ((Generate_next_state)^[k] (mkBoard init)).max_y from rfl, ih4]
          exact sentinelMax_sentinelMax _ _ _

lemma min_x_le_100 (init : List Cell) (n : ℕ) :
    ((Generate_next_state)^[n] (mkBoard init)).min_x ≤ 100 := by
  induction n with
  | zero =>
      rw [Function.iterate_zero_apply]
      unfold mkBoard
      rw [update_boundaries_min_x]
      exact sentinelMin_le _ _
  | succ k ih =>
      rw [Function.iterate_succ_apply']
      exact le_trans (gen_min_x_le _) ih

lemma neg100_le_max_x (init : List Cell) (n : ℕ) :
    (-100 : Int) ≤ ((Generate_next_state)^[n] (mkBoard init)).max_x := by
  induction n with
  | zero =>
      rw [Function.iterate_zero_apply]
      unfold mkBoard
      rw [update_boundaries_max_x]
      exact le_sentinelMax _ _
  | succ k ih =>
      rw [Function.iterate_succ_apply']
      exact le_trans ih (gen_le_max_x _)

/-! ### The claims -/

/-- C1: for a board with non-empty live set, a step makes a cell `c` alive
iff the number `n` of `c`'s 8 neighbours that belong to the
previous-generation snapshot (the live set as it was before the call)
satisfies `n = 3`, or `n = 2` with `c` itself in the snapshot. -/
theorem step_live_iff_rule (b : Board) (hb : b.live.Nonempty) (c : Cell) :
    c ∈ (Generate_next_state b).live ↔
      (((expand c).erase c ∩ b.live).card = 3 ∨
       (((expand c).erase c ∩ b.live).card = 2 ∧ c ∈ b.live)) := by
  rw [gen_live_of_nonempty (Finset.nonempty_iff_ne_empty.mp hb),
      Finset.mem_filter, transition_some_true_iff]
  exact ⟨fun h => h.2, fun h => ⟨rule_mem_expansion h, h⟩⟩

theorem step_live_iff_rule_witness :
    (mkBoard [(-1, 0), (0, 0), (1, 0)]).live.Nonempty ∧
    ((0 : Int), (1 : Int)) ∈ (Generate_next_state (mkBoard [(-1, 0), (0, 0), (1, 0)])).live := by
  have hb : (mkBoard [(-1, 0), (0, 0), (1, 0)]).live.Nonempty := by decide
  have hr : (((expand ((0 : Int), (1 : Int))).erase ((0 : Int), (1 : Int))
        ∩ (mkBoard [(-1, 0), (0, 0), (1, 0)]).live).card = 3 ∨
      (((expand ((0 : Int), (1 : Int))).erase ((0 : Int), (1 : Int))
        ∩ (mkBoard [(-1, 0), (0, 0), (1, 0)]).live).card = 2 ∧
        ((0 : Int), (1 : Int)) ∈ (mkBoard [(-1, 0), (0, 0), (1, 0)]).live)) := by decide
  exact ⟨hb, (step_live_iff_rule (mkBoard [(-1, 0), (0, 0), (1, 0)]) hb
    ((0 : Int), (1 : Int))).mpr hr⟩

/-- C2: the candidate set is the union of the full 3×3 neighbourhoods of
the live cells (membership is Chebyshev distance ≤ 1 from some live cell),
and every cell alive after a step lies in the neighbour expansion of the
current live set. -/
theorem candidate_set_and_sufficiency (s : Finset Cell) (c : Cell) (b : Board) :
    (c ∈ expansion s ↔ ∃ p ∈ s, |c.1 - p.1| ≤ 1 ∧ |c.2 - p.2| ≤ 1) ∧
    (Generate_next_state b).live ⊆ expansion b.live := by
  constructor
  · simp only [mem_expansion, mem_expand]
  · by_cases h : b.live = ∅
    · rw [gen_of_empty h, h]
      exact Finset.empty_subset _
    · rw [gen_live_of_nonempty h]
      exact Finset.filter_subset _ _

/-- C3: a board with an empty live set is a fixed point of `step`
(iterated any number of times the whole state — live set, previous,
generation counter and bounds — is unchanged). -/
theorem extinction_absorbing (b : Board) (n : ℕ) (h : b.live = ∅) :
    (Generate_next_state)^[n] b = b :=
  iterate_gen_of_empty h n

theorem extinction_absorbing_witness :
    (mkBoard ([] : List Cell)).live = ∅ ∧
    (Generate_next_state)^[3] (mkBoard ([] : List Cell)) = mkBoard ([] : List Cell) :=
  ⟨by decide, extinction_absorbing (mkBoard ([] : List Cell)) 3 (by decide)⟩

/-- C4: across any sequence of steps after construction, `min_x`/`min_y`
are non-increasing and `max_x`/`max_y` non-decreasing, and at every point
(including right after construction) the bounds contain every live
cell. -/
theorem bounds_monotone_and_contain (init : List Cell) (n : ℕ) :
    ((Generate_next_state ((Generate_next_state)^[n] (mkBoard init))).min_x
        ≤ ((Generate_next_state)^[n] (mkBoard init)).min_x)
      ∧ (((Generate_next_state)^[n] (mkBoard init)).max_x
        ≤ (Generate_next_state ((Generate_next_state)^[n] (mkBoard init))).max_x)
      ∧ ((Generate_next_state ((Generate_next_state)^[n] (mkBoard init))).min_y
        ≤ ((Generate_next_state)^[n] (mkBoard init)).min_y)
      ∧ (((Generate_next_state)^[n] (mkBoard init)).max_y
        ≤ (Generate_next_state ((Generate_next_state)^[n] (mkBoard init))).max_y)
      ∧ boundsContain ((Generate_next_state)^[n] (mkBoard init)) :=
  ⟨gen_min_x_le _, gen_le_max_x _, gen_min_y_le _, gen_le_max_y _,
   boundsContain_iterate init n⟩

/-- C5 (counterexample): for the seed `[(200, 0)]` the only cell ever live
after 0 steps is `(200, 0)`, whose tight bounding box has `min_x = 200`,
yet the board reports `min_x = 100` — the bounds are not the smallest box
containing all ever-live cells. -/
theorem bounds_not_tight_counterexample :
    everLive [((200 : Int), (0 : Int))] 0 = {((200 : Int), (0 : Int))} ∧
    ((everLive [((200 : Int), (0 : Int))] 0).image Prod.fst).min' ⟨200, by decide⟩ = 200 ∧
    (mkBoard [((200 : Int), (0 : Int))]).min_x = 100 ∧ (100 : Int) ≠ 200 := by
  refine ⟨by decide, by decide, by decide, by decide⟩

/-- C5 (amended): after any number of steps the bounds are the extrema of
the coordinates of all cells ever present in the live set, seeded with the
sentinel values of `__init__` (`100` for the minima, `-100` for the
maxima) — tight union of observed boxes clamped by the sentinel box. -/
theorem bounds_eq_sentinel_union (init : List Cell) (n : ℕ) :
    ((Generate_next_state)^[n] (mkBoard init)).min_x
        = sentinelMin 100 ((everLive init n).image Prod.fst)
      ∧ ((Generate_next_state)^[n] (mkBoard init)).max_x
        = sentinelMax (-100) ((everLive init n).image Prod.fst)
      ∧ ((Generate_next_state)^[n] (mkBoard init)).min_y
        = sentinelMin 100 ((everLive init n).image Prod.snd)
      ∧ ((Generate_next_state)^[n] (mkBoard init)).max_y
        = sentinelMax (-100) ((everLive init n).image Prod.snd) :=
  bounds_sentinel_iterate init n

/-- C6: on a non-empty live set a step increments the generation counter
by exactly one and leaves `previous` equal to the live set as it was
immediately before the call, and the counter starts at 0 on
construction. -/
theorem step_counter_and_snapshot (b : Board) (init : List Cell)
    (hb : b.live.Nonempty) :
    (Generate_next_state b).state = b.state + 1 ∧
    (Generate_next_state b).previous = b.live ∧
    (mkBoard init).state = 0 := by
  have h := Finset.nonempty_iff_ne_empty.mp hb
  refine ⟨gen_state_of_nonempty h, gen_previous_of_nonempty h, ?_⟩
  unfold mkBoard
  rw [update_boundaries_state]

theorem step_counter_and_snapshot_witness :
    (mkBoard [((0 : Int), (0 : Int))]).live.Nonempty ∧
    ((Generate_next_state (mkBoard [((0 : Int), (0 : Int))])).state
        = (mkBoard [((0 : Int), (0 : Int))]).state + 1 ∧
      (Generate_next_state (mkBoard [((0 : Int), (0 : Int))])).previous
        = (mkBoard [((0 : Int), (0 : Int))]).live ∧
      (mkBoard ([] : List Cell)).state = 0) :=
  ⟨by decide,
   step_counter_and_snapshot (mkBoard [((0 : Int), (0 : Int))]) ([] : List Cell)
     (by decide)⟩

/-- C7: the horizontal blinker becomes the vertical triomino after one
step and returns to the horizontal set after a second step. -/
theorem blinker_period_two :
    (Generate_next_state (mkBoard [(-1, 0), (0, 0), (1, 0)])).live
        = ({(0, -1), (0, 0), (0, 1)} : Finset Cell)
      ∧ (Generate_next_state (Generate_next_state (mkBoard [(-1, 0), (0, 0), (1, 0)]))).live
        = ({(-1, 0), (0, 0), (1, 0)} : Finset Cell) := by
  decide

/-- C8: after exactly 4 steps the 5-cell glider's live set equals the
original set translated by `(+1, -1)`. -/
theorem glider_translation :
    ((Generate_next_state)^[4] (mkBoard [(0, 1), (1, 0), (-1, -1), (0, -1), (1, -1)])).live
      = (mkBoard [(0, 1), (1, 0), (-1, -1), (0, -1), (1, -1)]).live.image
          (fun c => (c.1 + 1, c.2 - 1)) := by
  decide

/-- C9: `transition` always returns a boolean (the `remove` cannot fail
because `expand c` always contains `c`), and `expand c` is exactly the 9
cells at Chebyshev distance at most 1 from `c`. -/
theorem transition_total_and_expand_spec (c p : Cell) (s : Finset Cell) :
    (transition c s).isSome = true ∧
    (p ∈ expand c ↔ |p.1 - c.1| ≤ 1 ∧ |p.2 - c.2| ≤ 1) ∧
    c ∈ expand c ∧ (expand c).card = 9 := by
  refine ⟨?_, mem_expand, self_mem_expand c, card_expand c⟩
  rw [transition_eq_some]
  rfl

/-- C10: an empty seed gives the inverted sentinel box
`(100, -100, 100, -100)` which persists under any number of steps, and for
any seed `min_x ≤ 100` and `-100 ≤ max_x` always hold. -/
theorem empty_seed_sentinel_bounds (n : ℕ) (init : List Cell) :
    ((Generate_next_state)^[n] (mkBoard ([] : List Cell))).min_x = 100
      ∧ ((Generate_next_state)^[n] (mkBoard ([] : List Cell))).max_x = -100
      ∧ ((Generate_next_state)^[n] (mkBoard ([] : List Cell))).min_y = 100
      ∧ ((Generate_next_state)^[n] (mkBoard ([] : List Cell))).max_y = -100
      ∧ ((Generate_next_state)^[n] (mkBoard init)).min_x ≤ 100
      ∧ (-100 : Int) ≤ ((Generate_next_state)^[n] (mkBoard init)).max_x := by
  have hmk : (mkBoard ([] : List Cell)).live = ∅ := by decide
  rw [iterate_gen_of_empty hmk n]
  exact ⟨by decide, by decide, by decide, by decide,
    min_x_le_100 init n, neg100_le_max_x init n⟩
